import Mathlib

/-!
Shallow embedding of the vault PnL calculator (repository 0xeye/vault-pnl-logs).

Conventions of the embedding:
- JavaScript bigint is modelled as Int; bigint division truncates toward zero,
  which is Int.tdiv.  A bigint division whose denominator is zero throws in
  JavaScript; where the source divides raw bigints we model the result as an
  Option, with none standing for the thrown RangeError.
- JavaScript Number (float) arithmetic at the display boundary is modelled over
  the rationals; a float division is modelled by floatDiv, which returns none
  when the denominator is zero (the cases where JavaScript would produce NaN or
  an infinity instead of a finite number).
- A JavaScript Record (plain object used as a map from address strings) is
  modelled as a function from String to Option of the value type; spreading
  with one key overridden is modelled by a pointwise if-then-else update.
- Block numbers are Nat (they come from uint64-sized chain data); share and
  asset amounts are Int, as the source manipulates them as signed bigints.
-/

/-! ## utils/bigint.ts (src/unnamed/part_011) -/

/-- divide from utils/bigint.ts: `b !== ZERO ? a / b : ZERO` with truncating
bigint division. -/
def divide (a b : Int) : Int := if b ≠ 0 then a.tdiv b else 0

/-! ## Float boundary (exactToSimple from helper.ts, src/unnamed/part_002) -/

/-- exactToSimple converts a scaled integer to a plain number by dividing by
10 to the scale.  Modelled exactly over the rationals. -/
def exactToSimple (bn : Int) (scale : Nat) : ℚ := (bn : ℚ) / (10 : ℚ) ^ scale

/-- A JavaScript float division: none models the NaN / Infinity outcomes that
arise when the denominator is zero, some q the finite quotient. -/
def floatDiv (a b : ℚ) : Option ℚ := if b = 0 then none else some (a / b)

/-- Lower-casing of holder and contract addresses (String.toLower in the
source, also inside viem isAddressEqual).  Implemented structurally over the
character list so that concrete evaluation reduces in the kernel; it agrees
with String.toLower on every string. -/
def toLowerStr (s : String) : String := String.mk (s.data.map Char.toLower)

/-! ## Weighted-average path: data model (types.ts via calculate-pnl.ts) -/

inductive EventType where
  | deposit
  | withdraw
  | transfer_in
  | transfer_out
deriving DecidableEq

/-- VaultEvent.  The logIndex field records the raw log position of the
underlying chain log (the second component of the deduplication key
`tx_id-log_index` in fetchVaultEvents); the source drops it after
deduplication, and sortEventsByBlock never consults it. -/
structure VaultEvent where
  type : EventType
  blockNumber : Nat
  logIndex : Nat
  user : String
  assets : Int
  shares : Int
deriving DecidableEq

structure UserPosition where
  user : String
  events : List VaultEvent
  totalSharesHeld : Int
  totalAssetsInvested : Int
  totalAssetsWithdrawn : Int
  totalSharesDeposited : Int
  totalSharesWithdrawn : Int
deriving DecidableEq

abbrev PositionMap := String → Option UserPosition

/-! ## sortEventsByBlock (calculate-pnl.ts line 40, part_003 line 55)

The source sorts with the comparator `Number(a.blockNumber) - Number(b.blockNumber)`.
Array.prototype.sort is stable (ECMA-262), so the result is the stable sort of
the input by block number alone; we model it by a stable insertion sort keyed
on blockNumber. -/

def insertByBlock (e : VaultEvent) : List VaultEvent → List VaultEvent
  | [] => [e]
  | x :: xs => if x.blockNumber < e.blockNumber then x :: insertByBlock e xs else e :: x :: xs

def sortEventsByBlock (events : List VaultEvent) : List VaultEvent :=
  events.foldr insertByBlock []

/-! ## enrichEventsWithPricePerShare (calculate-pnl.ts lines 340-347)

For deposit and withdraw events the source computes
`pricePerShare = (event.assets * oneShare) / event.shares` with a raw bigint
division: when shares is zero JavaScript throws a RangeError, modelled as
none. -/

def depositPricePerShare (assets shares oneShare : Int) : Option Int :=
  if shares = 0 then none else some ((assets * oneShare).tdiv shares)

/-! ## aggregateUserPositions, calculate-pnl.ts variant (lines 89-124)

This variant counts transfer_in assets into totalAssetsInvested and
transfer_out assets into totalAssetsWithdrawn. -/

def initialPosition (user : String) (e : VaultEvent) : UserPosition :=
  { user := user
    events := [e]
    totalSharesHeld := if e.type = .deposit ∨ e.type = .transfer_in then e.shares else -e.shares
    totalAssetsInvested := if e.type = .deposit ∨ e.type = .transfer_in then e.assets else 0
    totalAssetsWithdrawn := if e.type = .withdraw ∨ e.type = .transfer_out then e.assets else 0
    totalSharesDeposited := if e.type = .deposit ∨ e.type = .transfer_in then e.shares else 0
    totalSharesWithdrawn := if e.type = .withdraw ∨ e.type = .transfer_out then e.shares else 0 }

def updatePosition (p : UserPosition) (e : VaultEvent) : UserPosition :=
  { p with
    events := p.events ++ [e]
    totalSharesHeld := if e.type = .deposit ∨ e.type = .transfer_in then
        p.totalSharesHeld + e.shares else p.totalSharesHeld - e.shares
    totalAssetsInvested := if e.type = .deposit ∨ e.type = .transfer_in then
        p.totalAssetsInvested + e.assets else p.totalAssetsInvested
    totalAssetsWithdrawn := if e.type = .withdraw ∨ e.type = .transfer_out then
        p.totalAssetsWithdrawn + e.assets else p.totalAssetsWithdrawn
    totalSharesDeposited := if e.type = .deposit ∨ e.type = .transfer_in then
        p.totalSharesDeposited + e.shares else p.totalSharesDeposited
    totalSharesWithdrawn := if e.type = .withdraw ∨ e.type = .transfer_out then
        p.totalSharesWithdrawn + e.shares else p.totalSharesWithdrawn }

def aggregateStep (positions : PositionMap) (event : VaultEvent) : PositionMap :=
  let user := toLowerStr event.user
  let updated := match positions user with
    | some p => updatePosition p event
    | none => initialPosition user event
  fun s => if s = user then some updated else positions s

def aggregateUserPositions (events : List VaultEvent) : PositionMap :=
  events.foldl aggregateStep (fun _ => none)

/-! ## aggregateUserPositions, part_003 (multi-chain) variant (lines 121-156)

This variant only counts deposit assets into totalAssetsInvested and only
withdraw assets into totalAssetsWithdrawn; transfers contribute shares but
never assets. -/

def initialPositionMulti (user : String) (e : VaultEvent) : UserPosition :=
  { user := user
    events := [e]
    totalSharesHeld := if e.type = .deposit ∨ e.type = .transfer_in then e.shares else -e.shares
    totalAssetsInvested := if e.type = .deposit then e.assets else 0
    totalAssetsWithdrawn := if e.type = .withdraw then e.assets else 0
    totalSharesDeposited := if e.type = .deposit ∨ e.type = .transfer_in then e.shares else 0
    totalSharesWithdrawn := if e.type = .withdraw ∨ e.type = .transfer_out then e.shares else 0 }

def updatePositionMulti (p : UserPosition) (e : VaultEvent) : UserPosition :=
  { p with
    events := p.events ++ [e]
    totalSharesHeld := if e.type = .deposit ∨ e.type = .transfer_in then
        p.totalSharesHeld + e.shares else p.totalSharesHeld - e.shares
    totalAssetsInvested := if e.type = .deposit then
        p.totalAssetsInvested + e.assets else p.totalAssetsInvested
    totalAssetsWithdrawn := if e.type = .withdraw then
        p.totalAssetsWithdrawn + e.assets else p.totalAssetsWithdrawn
    totalSharesDeposited := if e.type = .deposit ∨ e.type = .transfer_in then
        p.totalSharesDeposited + e.shares else p.totalSharesDeposited
    totalSharesWithdrawn := if e.type = .withdraw ∨ e.type = .transfer_out then
        p.totalSharesWithdrawn + e.shares else p.totalSharesWithdrawn }

def aggregateStepMulti (positions : PositionMap) (event : VaultEvent) : PositionMap :=
  let user := toLowerStr event.user
  let updated := match positions user with
    | some p => updatePositionMulti p event
    | none => initialPositionMulti user event
  fun s => if s = user then some updated else positions s

def aggregateUserPositionsMulti (events : List VaultEvent) : PositionMap :=
  events.foldl aggregateStepMulti (fun _ => none)

/-! ## PnLResult and calculatePnL (calculate-pnl.ts lines 43-87, part_015 lines 5-48) -/

structure PnLResult where
  user : String
  totalDeposited : Int
  totalWithdrawn : Int
  netInvested : Int
  currentShares : Int
  currentValue : Int
  totalValue : Int
  pnl : Int
  pnlPercentage : Option ℚ
  realizedPnL : Int
  unrealizedPnL : Int
  avgDepositPrice : Option ℚ
deriving DecidableEq

def calculatePnL (position : UserPosition) (currentValue : Int)
    (assetDecimals vaultDecimals : Nat) : PnLResult :=
  let netInvested := position.totalAssetsInvested - position.totalAssetsWithdrawn
  let totalValue := currentValue + position.totalAssetsWithdrawn
  let avgDepositPrice : Option ℚ :=
    if 0 < position.totalSharesDeposited then
      floatDiv (exactToSimple position.totalAssetsInvested assetDecimals)
        (exactToSimple position.totalSharesDeposited vaultDecimals)
    else some 0
  let costBasisOfWithdrawnShares : Int :=
    if 0 < position.totalSharesWithdrawn ∧ 0 < position.totalSharesDeposited then
      (position.totalAssetsInvested * position.totalSharesWithdrawn).tdiv
        position.totalSharesDeposited
    else 0
  let realizedPnL := position.totalAssetsWithdrawn - costBasisOfWithdrawnShares
  let costBasisOfRemainingShares : Int :=
    if 0 < position.totalSharesHeld ∧ 0 < position.totalSharesDeposited then
      (position.totalAssetsInvested * position.totalSharesHeld).tdiv
        position.totalSharesDeposited
    else 0
  let unrealizedPnL := currentValue - costBasisOfRemainingShares
  let calculatedPnl := realizedPnL + unrealizedPnL
  let pnlPercentage : Option ℚ :=
    if 0 < position.totalAssetsInvested then
      (floatDiv (exactToSimple calculatedPnl assetDecimals)
        (exactToSimple position.totalAssetsInvested assetDecimals)).map (fun q => q * 100)
    else some 0
  { user := position.user
    totalDeposited := position.totalAssetsInvested
    totalWithdrawn := position.totalAssetsWithdrawn
    netInvested := netInvested
    currentShares := position.totalSharesHeld
    currentValue := currentValue
    totalValue := totalValue
    pnl := calculatedPnl
    pnlPercentage := pnlPercentage
    realizedPnL := realizedPnL
    unrealizedPnL := unrealizedPnL
    avgDepositPrice := avgDepositPrice }

/-! ## calculatePnL, part_003 (multi-chain) variant (lines 58-119)

Differs from the previous calculator by the implied cost basis for holders
with shares but zero recorded investment: effectiveAssetsInvested is the
literal 1 (one raw asset unit) for them, the remaining-shares cost basis is
the literal 1 when nothing was ever deposited, and the zero-investment branch
of the percentage shows 100 * Number(currentValue). -/

def calculatePnLMulti (position : UserPosition) (currentValue : Int)
    (assetDecimals vaultDecimals : Nat) : PnLResult :=
  let hasOnlyTransferredShares :=
    position.totalAssetsInvested = 0 ∧ 0 < position.totalSharesHeld
  let effectiveAssetsInvested : Int :=
    if hasOnlyTransferredShares then 1 else position.totalAssetsInvested
  let netInvested := effectiveAssetsInvested - position.totalAssetsWithdrawn
  let totalValue := currentValue + position.totalAssetsWithdrawn
  let avgDepositPrice : Option ℚ :=
    if 0 < position.totalSharesDeposited then
      floatDiv (exactToSimple effectiveAssetsInvested assetDecimals)
        (exactToSimple position.totalSharesDeposited vaultDecimals)
    else some 0
  let costBasisOfWithdrawnShares : Int :=
    if 0 < position.totalSharesWithdrawn ∧ 0 < position.totalSharesDeposited then
      (effectiveAssetsInvested * position.totalSharesWithdrawn).tdiv
        position.totalSharesDeposited
    else 0
  let realizedPnL := position.totalAssetsWithdrawn - costBasisOfWithdrawnShares
  let costBasisOfRemainingShares : Int :=
    if 0 < position.totalSharesHeld then
      if 0 < position.totalSharesDeposited then
        (effectiveAssetsInvested * position.totalSharesHeld).tdiv
          position.totalSharesDeposited
      else 1
    else 0
  let unrealizedPnL := currentValue - costBasisOfRemainingShares
  let calculatedPnl := realizedPnL + unrealizedPnL
  let pnlPercentage : Option ℚ :=
    if 0 < effectiveAssetsInvested then
      (floatDiv (exactToSimple calculatedPnl assetDecimals)
        (exactToSimple effectiveAssetsInvested assetDecimals)).map (fun q => q * 100)
    else if 0 < currentValue then some (100 * (currentValue : ℚ))
    else some 0
  { user := position.user
    totalDeposited := effectiveAssetsInvested
    totalWithdrawn := position.totalAssetsWithdrawn
    netInvested := netInvested
    currentShares := position.totalSharesHeld
    currentValue := currentValue
    totalValue := totalValue
    pnl := calculatedPnl
    pnlPercentage := pnlPercentage
    realizedPnL := realizedPnL
    unrealizedPnL := unrealizedPnL
    avgDepositPrice := avgDepositPrice }

/-! ## FIFO lot ledger: data model (src/src/transferPnl.ts) -/

def ZERO_ADDRESS : String := "0x0000000000000000000000000000000000000000"

def BRIDGE_ADDRESS : String := "0x5480F3152748809495Bd56C14eaB4A622aA3A19b"

/-- viem isAddressEqual: case-insensitive comparison of the two addresses. -/
def isAddressEqual (a b : String) : Bool := toLowerStr a == toLowerStr b

inductive TransferType where
  | mint
  | burn
  | bridge_mint
  | transfer
deriving DecidableEq

/-- One ERC-20 Transfer log; fromAddr and toAddr stand for the from and to
fields of the source (from is a reserved word in Lean). -/
structure Transfer where
  fromAddr : String
  toAddr : String
  value : Int
  blockNumber : Nat
  type : TransferType
deriving DecidableEq

def categorizeTransfer (fromAddr toAddr : String) : TransferType :=
  if isAddressEqual fromAddr ZERO_ADDRESS then .mint
  else if isAddressEqual toAddr ZERO_ADDRESS then .burn
  else if isAddressEqual fromAddr BRIDGE_ADDRESS then .bridge_mint
  else .transfer

structure FIFOEntry where
  amount : Int
  costBasis : Int
  blockNumber : Nat
  source : TransferType
deriving DecidableEq

structure UserPnL where
  user : String
  totalAcquired : Int
  totalDisposed : Int
  currentBalance : Int
  totalCostBasis : Int
  realizedPnL : Int
  realizedCostBasis : Int
  unrealizedCostBasis : Int
  currentValue : Int
  unrealizedPnL : Int
  totalPnL : Int
  avgAcquisitionPrice : Option ℚ
  fifoQueue : List FIFOEntry
deriving DecidableEq

def createEmptyUserPnL (user : String) : UserPnL :=
  { user := user
    totalAcquired := 0
    totalDisposed := 0
    currentBalance := 0
    totalCostBasis := 0
    realizedPnL := 0
    realizedCostBasis := 0
    unrealizedCostBasis := 0
    currentValue := 0
    unrealizedPnL := 0
    totalPnL := 0
    avgAcquisitionPrice := some 0
    fifoQueue := [] }

/-! ## processAcquisition and processDisposal (transferPnl.ts lines 327-449) -/

def processAcquisition (currentUser : UserPnL) (value cost : Int) (blockNumber : Nat)
    (source : TransferType) : UserPnL :=
  { currentUser with
    totalAcquired := currentUser.totalAcquired + value
    currentBalance := currentUser.currentBalance + value
    totalCostBasis := currentUser.totalCostBasis + cost
    fifoQueue := currentUser.fifoQueue ++
      [{ amount := value, costBasis := cost, blockNumber := blockNumber, source := source }] }

structure DisposalAcc where
  remainingAmount : Int
  costBasisForDisposal : Int
  newQueue : List FIFOEntry
deriving DecidableEq

/-- One step of the FIFO queue walk inside processDisposal. -/
def disposalStep (acc : DisposalAcc) (entry : FIFOEntry) : DisposalAcc :=
  if acc.remainingAmount = 0 then
    { acc with newQueue := acc.newQueue ++ [entry] }
  else if entry.amount ≤ acc.remainingAmount then
    { remainingAmount := acc.remainingAmount - entry.amount
      costBasisForDisposal := acc.costBasisForDisposal + entry.costBasis
      newQueue := acc.newQueue }
  else
    let costUsed := divide (entry.costBasis * acc.remainingAmount) entry.amount
    { remainingAmount := 0
      costBasisForDisposal := acc.costBasisForDisposal + costUsed
      newQueue := acc.newQueue ++
        [{ amount := entry.amount - acc.remainingAmount
           costBasis := entry.costBasis - costUsed
           blockNumber := entry.blockNumber
           source := entry.source }] }

def processDisposal (userPnL : UserPnL) (amount proceeds : Int) : UserPnL :=
  let disposalAmount :=
    if userPnL.currentBalance < amount then userPnL.currentBalance else amount
  if disposalAmount = 0 then userPnL
  else
    let processedQueue := userPnL.fifoQueue.foldl disposalStep
      { remainingAmount := disposalAmount, costBasisForDisposal := 0, newQueue := [] }
    let realizedGain := proceeds - processedQueue.costBasisForDisposal
    { userPnL with
      totalDisposed := userPnL.totalDisposed + disposalAmount
      currentBalance := userPnL.currentBalance - disposalAmount
      fifoQueue := processedQueue.newQueue
      realizedCostBasis := userPnL.realizedCostBasis + processedQueue.costBasisForDisposal
      realizedPnL := userPnL.realizedPnL + realizedGain }

/-! ## processUserTransfers (transferPnl.ts lines 298-380) -/

abbrev UserMap := String → Option UserPnL

/-- Price for a transfer: `priceMap.get(blockNumber) || currentPrice`.  The
JavaScript or-else also replaces a present price of 0n (falsy) by the current
price. -/
def transferPrice (priceMap : Nat → Option Int) (currentPrice : Int)
    (blockNumber : Nat) : Int :=
  match priceMap blockNumber with
  | some p => if p = 0 then currentPrice else p
  | none => currentPrice

/-- One step of the reduce inside processUserTransfers.  In the transfer case
the acquisition by the receiver reads the holder record from the accumulator
captured before the disposal update, exactly as the source closure does. -/
def processOneTransfer (decimals : Nat) (priceMap : Nat → Option Int) (currentPrice : Int)
    (acc : UserMap) (t : Transfer) : UserMap :=
  let price := transferPrice priceMap currentPrice t.blockNumber
  let cost := divide (t.value * price) ((10 : Int) ^ decimals)
  match t.type with
  | .mint =>
      if isAddressEqual t.toAddr BRIDGE_ADDRESS then acc
      else
        let updated := processAcquisition ((acc t.toAddr).getD (createEmptyUserPnL t.toAddr))
          t.value cost t.blockNumber .mint
        fun s => if s = t.toAddr then some updated else acc s
  | .bridge_mint =>
      let updated := processAcquisition ((acc t.toAddr).getD (createEmptyUserPnL t.toAddr))
        t.value cost t.blockNumber .bridge_mint
      fun s => if s = t.toAddr then some updated else acc s
  | .burn =>
      match acc t.fromAddr with
      | none => acc
      | some u =>
          fun s => if s = t.fromAddr then some (processDisposal u t.value cost) else acc s
  | .transfer =>
      let acc1 : UserMap :=
        match acc t.fromAddr with
        | none => acc
        | some u =>
            fun s => if s = t.fromAddr then some (processDisposal u t.value cost) else acc s
      let updated := processAcquisition ((acc t.toAddr).getD (createEmptyUserPnL t.toAddr))
        t.value cost t.blockNumber .transfer
      fun s => if s = t.toAddr then some updated else acc1 s

def processUserTransfers (transfers : List Transfer) (priceMap : Nat → Option Int)
    (decimals : Nat) (currentPrice : Int) : UserMap :=
  transfers.foldl (processOneTransfer decimals priceMap currentPrice) (fun _ => none)

/-! ## calculateUnrealizedPnL (transferPnl.ts lines 451-501), per-user update -/

def calculateUnrealizedPnLUser (userPnL : UserPnL) (currentPrice : Int)
    (decimals assetDecimals : Nat) : UserPnL :=
  let unrealizedCostBasis := userPnL.fifoQueue.foldl (fun sum entry => sum + entry.costBasis) 0
  let currentValue := divide (userPnL.currentBalance * currentPrice) ((10 : Int) ^ decimals)
  let unrealizedPnL := currentValue - unrealizedCostBasis
  let totalPnL := userPnL.realizedPnL + unrealizedPnL
  let avgAcquisitionPrice :=
    if 0 < userPnL.totalAcquired then
      floatDiv (exactToSimple userPnL.totalCostBasis assetDecimals)
        (exactToSimple userPnL.totalAcquired decimals)
    else userPnL.avgAcquisitionPrice
  { userPnL with
    unrealizedCostBasis := unrealizedCostBasis
    currentValue := currentValue
    unrealizedPnL := unrealizedPnL
    totalPnL := totalPnL
    avgAcquisitionPrice := avgAcquisitionPrice }

/-! ## calculateVaultPnL (transferPnl.ts lines 503-548)

Object.values of the user record is passed as an explicit list. -/

structure TransferTotals where
  totalMinted : Int
  totalBurned : Int
  totalBridgeMinted : Int
deriving DecidableEq

def transferTotalsStep (acc : TransferTotals) (transfer : Transfer) : TransferTotals :=
  match transfer.type with
  | .mint =>
      if isAddressEqual transfer.toAddr BRIDGE_ADDRESS then acc
      else { acc with totalMinted := acc.totalMinted + transfer.value }
  | .burn => { acc with totalBurned := acc.totalBurned + transfer.value }
  | .bridge_mint => { acc with totalBridgeMinted := acc.totalBridgeMinted + transfer.value }
  | .transfer => acc

structure VaultPnL where
  totalSupply : Int
  totalMinted : Int
  totalBurned : Int
  totalBridgeMinted : Int
  netSupplyChange : Int
  currentTotalValue : Int
  totalUsers : Nat
  activeUsers : Nat
deriving DecidableEq

def calculateVaultPnL (transfers : List Transfer) (users : List UserPnL) : VaultPnL :=
  let totals := transfers.foldl transferTotalsStep
    { totalMinted := 0, totalBurned := 0, totalBridgeMinted := 0 }
  let totalSupply := totals.totalMinted + totals.totalBridgeMinted - totals.totalBurned
  let currentTotalValue := users.foldl (fun sum u => sum + u.currentValue) 0
  let activeUsers := (users.filter (fun u => 0 < u.currentBalance)).length
  { totalSupply := totalSupply
    totalMinted := totals.totalMinted
    totalBurned := totals.totalBurned
    totalBridgeMinted := totals.totalBridgeMinted
    netSupplyChange := totalSupply
    currentTotalValue := currentTotalValue
    totalUsers := users.length
    activeUsers := activeUsers }

/-! ## List sums over FIFO queues and conservation lemmas -/

def sumAmount : List FIFOEntry → Int
  | [] => 0
  | e :: q => e.amount + sumAmount q

def sumCost : List FIFOEntry → Int
  | [] => 0
  | e :: q => e.costBasis + sumCost q

theorem sumAmount_append (l1 l2 : List FIFOEntry) :
    sumAmount (l1 ++ l2) = sumAmount l1 + sumAmount l2 := by
  induction l1 with
  | nil => simp [sumAmount]
  | cons e q ih => simp [sumAmount, ih]; ring

theorem sumCost_append (l1 l2 : List FIFOEntry) :
    sumCost (l1 ++ l2) = sumCost l1 + sumCost l2 := by
  induction l1 with
  | nil => simp [sumCost]
  | cons e q ih => simp [sumCost, ih]; ring

theorem sumAmount_nonneg (q : List FIFOEntry) (h : ∀ e ∈ q, 0 ≤ e.amount) :
    0 ≤ sumAmount q := by
  induction q with
  | nil => simp [sumAmount]
  | cons e q ih =>
      have he : 0 ≤ e.amount := h e (by simp)
      have hq : 0 ≤ sumAmount q := ih (fun x hx => h x (by simp [hx]))
      simpa [sumAmount] using add_nonneg he hq

theorem foldl_add_costBasis (q : List FIFOEntry) (a : Int) :
    q.foldl (fun sum entry => sum + entry.costBasis) a = a + sumCost q := by
  induction q generalizing a with
  | nil => simp [sumCost]
  | cons e q ih => simp [List.foldl, sumCost, ih]; ring

/-- Main property of the FIFO queue walk inside processDisposal: when the
requested amount does not exceed the total of the queue and every lot amount
is non-negative, the walk consumes the whole requested amount, removes exactly
that amount from the queue, and conserves cost basis exactly between the new
queue and the cost charged to the disposal. -/
theorem disposal_fold_spec (q : List FIFOEntry) (acc : DisposalAcc)
    (hq : ∀ e ∈ q, 0 ≤ e.amount) (hr0 : 0 ≤ acc.remainingAmount)
    (hr1 : acc.remainingAmount ≤ sumAmount q)
    (hnn : ∀ e ∈ acc.newQueue, 0 ≤ e.amount) :
    (q.foldl disposalStep acc).remainingAmount = 0 ∧
    sumAmount (q.foldl disposalStep acc).newQueue =
      sumAmount acc.newQueue + sumAmount q - acc.remainingAmount ∧
    sumCost (q.foldl disposalStep acc).newQueue +
        (q.foldl disposalStep acc).costBasisForDisposal =
      sumCost acc.newQueue + acc.costBasisForDisposal + sumCost q ∧
    (∀ e ∈ (q.foldl disposalStep acc).newQueue, 0 ≤ e.amount) := by
  induction q generalizing acc with
  | nil =>
      have h0 : acc.remainingAmount = 0 := le_antisymm (by simpa [sumAmount] using hr1) hr0
      exact ⟨h0, by simp [sumAmount, h0], by simp [sumCost], hnn⟩
  | cons e q ih =>
      have he : 0 ≤ e.amount := hq e (by simp)
      have hq' : ∀ x ∈ q, 0 ≤ x.amount := fun x hx => hq x (by simp [hx])
      by_cases h0 : acc.remainingAmount = 0
      · -- queue walk keeps appending untouched entries
        have step : disposalStep acc e = { acc with newQueue := acc.newQueue ++ [e] } := by
          simp [disposalStep, h0]
        have hrq : (0 : Int) ≤ sumAmount q := sumAmount_nonneg q hq'
        have := ih { acc with newQueue := acc.newQueue ++ [e] }
          hq' (by simp [h0]) (by simp [h0, hrq])
          (by
            intro x hx
            rcases List.mem_append.mp hx with hx' | hx'
            · exact hnn x hx'
            · simp at hx'; simpa [hx'] using he)
        rcases this with ⟨h1, h2, h3, h4⟩
        refine ⟨by simpa [List.foldl, step] using h1, ?_, ?_, ?_⟩
        · rw [List.foldl_cons, step] at *
          rw [h2]
          simp [sumAmount_append, sumAmount, h0]
          ring
        · rw [List.foldl_cons, step] at *
          rw [h3]
          simp [sumCost_append, sumCost]
          ring
        · intro x hx
          rw [List.foldl_cons, step] at hx
          exact h4 x hx
      · by_cases hle : e.amount ≤ acc.remainingAmount
        · -- fully consume the head lot
          have step : disposalStep acc e =
              { remainingAmount := acc.remainingAmount - e.amount
                costBasisForDisposal := acc.costBasisForDisposal + e.costBasis
                newQueue := acc.newQueue } := by
            simp [disposalStep, h0, hle]
          have hr1' : acc.remainingAmount - e.amount ≤ sumAmount q := by
            have : acc.remainingAmount ≤ e.amount + sumAmount q := by
              simpa [sumAmount] using hr1
            omega
          have := ih { remainingAmount := acc.remainingAmount - e.amount
                       costBasisForDisposal := acc.costBasisForDisposal + e.costBasis
                       newQueue := acc.newQueue }
            hq' (by simp; omega) (by simpa using hr1') (by simpa using hnn)
          rcases this with ⟨h1, h2, h3, h4⟩
          refine ⟨by simpa [List.foldl, step] using h1, ?_, ?_, ?_⟩
          · rw [List.foldl_cons, step] at *
            rw [h2]
            simp [sumAmount]
            ring
          · rw [List.foldl_cons, step] at *
            rw [h3]
            simp [sumCost]
            ring
          · intro x hx
            rw [List.foldl_cons, step] at hx
            exact h4 x hx
        · -- partially consume the head lot
          have hlt : acc.remainingAmount < e.amount := lt_of_not_ge hle
          have hrpos : 0 < acc.remainingAmount := lt_of_le_of_ne hr0 (Ne.symm h0)
          set costUsed := divide (e.costBasis * acc.remainingAmount) e.amount with hcu
          have step : disposalStep acc e =
              { remainingAmount := 0
                costBasisForDisposal := acc.costBasisForDisposal + costUsed
                newQueue := acc.newQueue ++
                  [{ amount := e.amount - acc.remainingAmount
                     costBasis := e.costBasis - costUsed
                     blockNumber := e.blockNumber
                     source := e.source }] } := by
            simp [disposalStep, h0, hle, hcu]
          have hrq : (0 : Int) ≤ sumAmount q := sumAmount_nonneg q hq'
          have := ih { remainingAmount := 0
                       costBasisForDisposal := acc.costBasisForDisposal + costUsed
                       newQueue := acc.newQueue ++
                         [{ amount := e.amount - acc.remainingAmount
                            costBasis := e.costBasis - costUsed
                            blockNumber := e.blockNumber
                            source := e.source }] }
            hq' (by simp) (by simpa using hrq)
            (by
              intro x hx
              rcases List.mem_append.mp hx with hx' | hx'
              · exact hnn x hx'
              · simp at hx'
                subst hx'
                simp
                omega)
          rcases this with ⟨h1, h2, h3, h4⟩
          refine ⟨by simpa [List.foldl, step] using h1, ?_, ?_, ?_⟩
          · rw [List.foldl_cons, step] at *
            rw [h2]
            simp [sumAmount_append, sumAmount]
            ring
          · rw [List.foldl_cons, step] at *
            rw [h3]
            simp [sumCost_append, sumCost]
            ring
          · intro x hx
            rw [List.foldl_cons, step] at hx
            exact h4 x hx

/-! ## The per-holder ledger invariant -/

/-- Invariant of a holder record in the FIFO ledger: lot amounts are
non-negative, the queue amounts total the current balance, and the queue cost
bases total the unrealized part of the total cost basis. -/
def GoodUser (u : UserPnL) : Prop :=
  (∀ e ∈ u.fifoQueue, 0 ≤ e.amount) ∧
  sumAmount u.fifoQueue = u.currentBalance ∧
  sumCost u.fifoQueue = u.totalCostBasis - u.realizedCostBasis

def GoodMap (m : UserMap) : Prop := ∀ s u, m s = some u → GoodUser u

theorem goodUser_empty (s : String) : GoodUser (createEmptyUserPnL s) := by
  refine ⟨?_, ?_, ?_⟩ <;> simp [createEmptyUserPnL, sumAmount, sumCost]

theorem goodUser_processAcquisition (u : UserPnL) (value cost : Int) (blockNumber : Nat)
    (source : TransferType) (hv : 0 ≤ value) (hg : GoodUser u) :
    GoodUser (processAcquisition u value cost blockNumber source) := by
  obtain ⟨hnn, hbal, hcb⟩ := hg
  refine ⟨?_, ?_, ?_⟩
  · intro e he
    simp [processAcquisition] at he
    rcases he with h | h
    · exact hnn e h
    · simpa [h] using hv
  · simp [processAcquisition, sumAmount_append, sumAmount, hbal]
  · simp [processAcquisition, sumCost_append, sumCost, hcb]
    ring

theorem goodUser_processDisposal (u : UserPnL) (amount proceeds : Int)
    (ha : 0 ≤ amount) (hg : GoodUser u) :
    GoodUser (processDisposal u amount proceeds) := by
  obtain ⟨hnn, hbal, hcb⟩ := hg
  have hbal0 : 0 ≤ u.currentBalance := hbal ▸ sumAmount_nonneg u.fifoQueue hnn
  unfold processDisposal
  by_cases hz : (if u.currentBalance < amount then u.currentBalance else amount) = 0
  · simp only [hz, if_pos rfl]
    exact ⟨hnn, hbal, hcb⟩
  · simp only [hz, if_neg hz]
    set d := if u.currentBalance < amount then u.currentBalance else amount with hd
    have hd0 : 0 ≤ d := by rw [hd]; split <;> omega
    have hdle : d ≤ sumAmount u.fifoQueue := by
      rw [hbal, hd]; split <;> omega
    have := disposal_fold_spec u.fifoQueue
      { remainingAmount := d, costBasisForDisposal := 0, newQueue := [] }
      hnn (by simpa using hd0) (by simpa using hdle) (by simp)
    rcases this with ⟨_, h2, h3, h4⟩
    refine ⟨?_, ?_, ?_⟩
    · intro e he
      exact h4 e he
    · have h2' : sumAmount (u.fifoQueue.foldl disposalStep
          { remainingAmount := d, costBasisForDisposal := 0, newQueue := [] }).newQueue =
          sumAmount u.fifoQueue - d := by
        simpa [sumAmount] using h2
      simp [h2', hbal]
    · have h3' : sumCost (u.fifoQueue.foldl disposalStep
          { remainingAmount := d, costBasisForDisposal := 0, newQueue := [] }).newQueue +
          (u.fifoQueue.foldl disposalStep
          { remainingAmount := d, costBasisForDisposal := 0, newQueue := [] }).costBasisForDisposal =
          sumCost u.fifoQueue := by
        simpa [sumCost] using h3
      simp
      omega

theorem goodMap_set (m : UserMap) (k : String) (v : UserPnL)
    (hm : GoodMap m) (hv : GoodUser v) :
    GoodMap (fun s => if s = k then some v else m s) := by
  intro s u hs
  by_cases h : s = k
  · simp [h] at hs
    simpa [← hs] using hv
  · simp [h] at hs
    exact hm s u hs

theorem processOneTransfer_mint (decimals : Nat) (priceMap : Nat → Option Int)
    (currentPrice : Int) (acc : UserMap) (tf tt : String) (tv : Int) (tb : Nat) :
    processOneTransfer decimals priceMap currentPrice acc ⟨tf, tt, tv, tb, .mint⟩ =
      (if isAddressEqual tt BRIDGE_ADDRESS then acc
       else fun s => if s = tt then
          some (processAcquisition ((acc tt).getD (createEmptyUserPnL tt)) tv
            (divide (tv * transferPrice priceMap currentPrice tb) ((10 : Int) ^ decimals))
            tb .mint)
        else acc s) := rfl

theorem processOneTransfer_bridge_mint (decimals : Nat) (priceMap : Nat → Option Int)
    (currentPrice : Int) (acc : UserMap) (tf tt : String) (tv : Int) (tb : Nat) :
    processOneTransfer decimals priceMap currentPrice acc ⟨tf, tt, tv, tb, .bridge_mint⟩ =
      fun s => if s = tt then
          some (processAcquisition ((acc tt).getD (createEmptyUserPnL tt)) tv
            (divide (tv * transferPrice priceMap currentPrice tb) ((10 : Int) ^ decimals))
            tb .bridge_mint)
        else acc s := rfl

theorem processOneTransfer_burn (decimals : Nat) (priceMap : Nat → Option Int)
    (currentPrice : Int) (acc : UserMap) (tf tt : String) (tv : Int) (tb : Nat) :
    processOneTransfer decimals priceMap currentPrice acc ⟨tf, tt, tv, tb, .burn⟩ =
      (match acc tf with
       | none => acc
       | some u => fun s => if s = tf then
            some (processDisposal u tv
              (divide (tv * transferPrice priceMap currentPrice tb) ((10 : Int) ^ decimals)))
          else acc s) := rfl

theorem processOneTransfer_transfer (decimals : Nat) (priceMap : Nat → Option Int)
    (currentPrice : Int) (acc : UserMap) (tf tt : String) (tv : Int) (tb : Nat) :
    processOneTransfer decimals priceMap currentPrice acc ⟨tf, tt, tv, tb, .transfer⟩ =
      (let cost := divide (tv * transferPrice priceMap currentPrice tb) ((10 : Int) ^ decimals)
       let acc1 : UserMap := match acc tf with
         | none => acc
         | some u => fun s => if s = tf then some (processDisposal u tv cost) else acc s
       let updated := processAcquisition ((acc tt).getD (createEmptyUserPnL tt)) tv cost tb .transfer
       fun s => if s = tt then some updated else acc1 s) := rfl

theorem goodMap_processOneTransfer (decimals : Nat) (priceMap : Nat → Option Int)
    (currentPrice : Int) (acc : UserMap) (t : Transfer)
    (hv : 0 ≤ t.value) (hm : GoodMap acc) :
    GoodMap (processOneTransfer decimals priceMap currentPrice acc t) := by
  obtain ⟨tf, tt, tv, tb, ty⟩ := t
  simp only at hv
  have hto : GoodUser ((acc tt).getD (createEmptyUserPnL tt)) := by
    cases h : acc tt with
    | none => simpa [h] using goodUser_empty tt
    | some u => simpa [h] using hm tt u h
  cases ty with
  | mint =>
      rw [processOneTransfer_mint]
      split
      · exact hm
      · exact goodMap_set _ _ _ hm (goodUser_processAcquisition _ _ _ _ _ hv hto)
  | bridge_mint =>
      rw [processOneTransfer_bridge_mint]
      exact goodMap_set _ _ _ hm (goodUser_processAcquisition _ _ _ _ _ hv hto)
  | burn =>
      rw [processOneTransfer_burn]
      cases h : acc tf with
      | none => simpa [h] using hm
      | some u =>
          simp only [h]
          exact goodMap_set _ _ _ hm
            (goodUser_processDisposal u _ _ hv (hm tf u h))
  | transfer =>
      rw [processOneTransfer_transfer]
      have hacc1 : GoodMap (match acc tf with
          | none => acc
          | some u => fun s =>
              if s = tf then
                some (processDisposal u tv
                  (divide (tv * transferPrice priceMap currentPrice tb)
                    ((10 : Int) ^ decimals))) else acc s) := by
        cases h : acc tf with
        | none => simpa [h] using hm
        | some u =>
            simp only [h]
            exact goodMap_set _ _ _ hm
              (goodUser_processDisposal u _ _ hv (hm tf u h))
      exact goodMap_set _ _ _ hacc1 (goodUser_processAcquisition _ _ _ _ _ hv hto)

theorem goodMap_processUserTransfers (transfers : List Transfer)
    (priceMap : Nat → Option Int) (decimals : Nat) (currentPrice : Int)
    (hv : ∀ t ∈ transfers, 0 ≤ t.value) :
    GoodMap (processUserTransfers transfers priceMap decimals currentPrice) := by
  unfold processUserTransfers
  have : ∀ (l : List Transfer) (m : UserMap), (∀ t ∈ l, 0 ≤ t.value) → GoodMap m →
      GoodMap (l.foldl (processOneTransfer decimals priceMap currentPrice) m) := by
    intro l
    induction l with
    | nil => intro m _ hm; simpa using hm
    | cons t l ih =>
        intro m hl hm
        have ht : 0 ≤ t.value := hl t (by simp)
        have hl' : ∀ x ∈ l, 0 ≤ x.value := fun x hx => hl x (by simp [hx])
        simpa [List.foldl] using
          ih _ hl' (goodMap_processOneTransfer decimals priceMap currentPrice m t ht hm)
  exact this transfers (fun _ => none) hv (by intro s u h; simp at h)

/-! ## Ordering properties of sortEventsByBlock -/

theorem mem_insertByBlock (e x : VaultEvent) (l : List VaultEvent) :
    x ∈ insertByBlock e l ↔ x = e ∨ x ∈ l := by
  induction l with
  | nil => simp [insertByBlock]
  | cons y ys ih =>
      by_cases h : y.blockNumber < e.blockNumber
      · simp only [insertByBlock, if_pos h, List.mem_cons, ih]
        tauto
      · simp only [insertByBlock, if_neg h, List.mem_cons]

theorem pairwise_insertByBlock (e : VaultEvent) (l : List VaultEvent)
    (hl : l.Pairwise (fun x y => x.blockNumber ≤ y.blockNumber)) :
    (insertByBlock e l).Pairwise (fun x y => x.blockNumber ≤ y.blockNumber) := by
  induction l with
  | nil => simp [insertByBlock]
  | cons y ys ih =>
      rcases List.pairwise_cons.mp hl with ⟨hy, hys⟩
      by_cases h : y.blockNumber < e.blockNumber
      · simp only [insertByBlock, if_pos h]
        refine List.pairwise_cons.mpr ⟨?_, ih hys⟩
        intro z hz
        rcases (mem_insertByBlock e z ys).mp hz with rfl | hz'
        · omega
        · exact hy z hz'
      · simp only [insertByBlock, if_neg h]
        refine List.pairwise_cons.mpr ⟨?_, hl⟩
        intro z hz
        rcases List.mem_cons.mp hz with rfl | hz'
        · omega
        · have := hy z hz'
          omega

theorem filter_insertByBlock (e : VaultEvent) (l : List VaultEvent) (b : Nat) :
    (insertByBlock e l).filter (fun x => x.blockNumber == b) =
      if e.blockNumber == b then e :: l.filter (fun x => x.blockNumber == b)
      else l.filter (fun x => x.blockNumber == b) := by
  induction l with
  | nil =>
      cases hb : (e.blockNumber == b) <;>
        simp [insertByBlock, List.filter_cons, hb]
  | cons y ys ih =>
      by_cases h : y.blockNumber < e.blockNumber
      · simp only [insertByBlock, if_pos h, List.filter_cons]
        by_cases hb : e.blockNumber = b
        · have hy : (y.blockNumber == b) = false := by
            simp only [beq_eq_false_iff_ne, ne_eq]
            omega
          simp [hy, ih, hb]
        · have he : (e.blockNumber == b) = false := by
            simp only [beq_eq_false_iff_ne, ne_eq]
            exact hb
          simp [ih, he]
      · cases hb : (e.blockNumber == b) <;>
          simp [insertByBlock, if_neg h, List.filter_cons, hb]

theorem sortEventsByBlock_pairwise (events : List VaultEvent) :
    (sortEventsByBlock events).Pairwise (fun x y => x.blockNumber ≤ y.blockNumber) := by
  induction events with
  | nil => simp [sortEventsByBlock]
  | cons e es ih => exact pairwise_insertByBlock e (sortEventsByBlock es) ih

theorem sortEventsByBlock_filter (events : List VaultEvent) (b : Nat) :
    (sortEventsByBlock events).filter (fun x => x.blockNumber == b) =
      events.filter (fun x => x.blockNumber == b) := by
  induction events with
  | nil => rfl
  | cons e es ih =>
      show (insertByBlock e (sortEventsByBlock es)).filter (fun x => x.blockNumber == b) = _
      rw [filter_insertByBlock, ih, List.filter_cons]

/-! ## Invested-assets accounting of the two weighted-average aggregators -/

/-- Total assets recorded as invested for the holder key u in a position map,
zero when the holder is absent. -/
def totalInvestedOf (m : PositionMap) (u : String) : Int :=
  match m u with
  | some p => p.totalAssetsInvested
  | none => 0

/-- Sum of the assets of the deposit events whose lower-cased holder is u. -/
def sumDepositAssets : List VaultEvent → String → Int
  | [], _ => 0
  | e :: es, u =>
      (if e.type = .deposit ∧ toLowerStr e.user = u then e.assets else 0) + sumDepositAssets es u

theorem aggregateStepMulti_invested (m : PositionMap) (e : VaultEvent) (u : String) :
    totalInvestedOf (aggregateStepMulti m e) u =
      totalInvestedOf m u + (if e.type = .deposit ∧ toLowerStr e.user = u then e.assets else 0) := by
  by_cases hu : u = toLowerStr e.user
  · subst hu
    cases h : m (toLowerStr e.user) with
    | none =>
        by_cases ht : e.type = .deposit <;>
          simp [aggregateStepMulti, totalInvestedOf, h, ht, initialPositionMulti]
    | some p =>
        by_cases ht : e.type = .deposit <;>
          simp [aggregateStepMulti, totalInvestedOf, h, ht, updatePositionMulti]
  · have hu' : ¬ (e.type = .deposit ∧ toLowerStr e.user = u) := by
      rintro ⟨-, h⟩
      exact hu h.symm
    simp [aggregateStepMulti, totalInvestedOf, hu, hu']

theorem foldl_aggregateStepMulti_invested (events : List VaultEvent) (m : PositionMap)
    (u : String) :
    totalInvestedOf (events.foldl aggregateStepMulti m) u =
      totalInvestedOf m u + sumDepositAssets events u := by
  induction events generalizing m with
  | nil => simp [sumDepositAssets]
  | cons e es ih =>
      simp only [List.foldl_cons, sumDepositAssets]
      rw [ih, aggregateStepMulti_invested]
      ring

/-! ## A small fact about the float boundary -/

theorem exactToSimple_ne_zero (n : Int) (s : Nat) (h : 0 < n) : exactToSimple n s ≠ 0 := by
  unfold exactToSimple
  have h10 : (0 : ℚ) < (10 : ℚ) ^ s := by positivity
  have hn : (0 : ℚ) < (n : ℚ) := by exact_mod_cast h
  exact ne_of_gt (div_pos hn h10)

/-! ## Frame and clamp behaviour of processDisposal -/

theorem processDisposal_balance (u : UserPnL) (amount proceeds : Int) :
    (processDisposal u amount proceeds).currentBalance =
      u.currentBalance - min u.currentBalance amount ∧
    (processDisposal u amount proceeds).totalDisposed =
      u.totalDisposed + min u.currentBalance amount := by
  have hd : (if u.currentBalance < amount then u.currentBalance else amount) =
      min u.currentBalance amount := by
    rcases le_or_lt amount u.currentBalance with h | h
    · rw [if_neg (not_lt.mpr h), min_eq_right h]
    · rw [if_pos h, min_eq_left h.le]
  unfold processDisposal
  simp only [hd]
  split
  · next h0 => constructor <;> simp [h0]
  · constructor <;> simp

/-! ## The claims -/

/-- C1: for every position and every current valuation the total PnL field is
computed as the sum of the realized and unrealized PnL fields, in both the
weighted-average calculatePnL and the FIFO calculateUnrealizedPnL per-user
update. -/
theorem claim_C1_total_is_realized_plus_unrealized
    (position : UserPosition) (currentValue : Int) (assetDecimals vaultDecimals : Nat)
    (u : UserPnL) (currentPrice : Int) (decimals2 assetDecimals2 : Nat) :
    (calculatePnL position currentValue assetDecimals vaultDecimals).pnl =
      (calculatePnL position currentValue assetDecimals vaultDecimals).realizedPnL +
      (calculatePnL position currentValue assetDecimals vaultDecimals).unrealizedPnL ∧
    (calculateUnrealizedPnLUser u currentPrice decimals2 assetDecimals2).totalPnL =
      (calculateUnrealizedPnLUser u currentPrice decimals2 assetDecimals2).realizedPnL +
      (calculateUnrealizedPnLUser u currentPrice decimals2 assetDecimals2).unrealizedPnL := by
  constructor
  · simp [calculatePnL]
  · simp [calculateUnrealizedPnLUser]

/-- C2: FIFO lot conservation: after processing any transfer stream with
non-negative values, for every holder present in the resulting map the queue
amounts total the current balance, the unrealized cost basis computed by
calculateUnrealizedPnL is exactly the queue cost-basis total, and that total
equals totalCostBasis minus realizedCostBasis. -/
theorem claim_C2_fifo_lot_conservation (transfers : List Transfer)
    (priceMap : Nat → Option Int) (decimals : Nat) (currentPrice : Int)
    (hv : ∀ t ∈ transfers, 0 ≤ t.value) (s : String) (u : UserPnL)
    (hu : processUserTransfers transfers priceMap decimals currentPrice s = some u)
    (price2 : Int) (decimals2 assetDecimals2 : Nat) :
    sumAmount u.fifoQueue = u.currentBalance ∧
    (calculateUnrealizedPnLUser u price2 decimals2 assetDecimals2).unrealizedCostBasis =
      sumCost u.fifoQueue ∧
    sumCost u.fifoQueue = u.totalCostBasis - u.realizedCostBasis := by
  obtain ⟨hnn, hbal, hcb⟩ :=
    goodMap_processUserTransfers transfers priceMap decimals currentPrice hv s u hu
  refine ⟨hbal, ?_, hcb⟩
  simp [calculateUnrealizedPnLUser, foldl_add_costBasis]

def c2Transfers : List Transfer :=
  [⟨ZERO_ADDRESS, "a", 100, 1, .mint⟩, ⟨"a", "b", 30, 2, .transfer⟩]

def c2Record : UserPnL :=
  { user := "a", totalAcquired := 100, totalDisposed := 30, currentBalance := 70,
    totalCostBasis := 200, realizedPnL := 0, realizedCostBasis := 60,
    unrealizedCostBasis := 0, currentValue := 0, unrealizedPnL := 0, totalPnL := 0,
    avgAcquisitionPrice := some 0,
    fifoQueue := [{ amount := 70, costBasis := 140, blockNumber := 1, source := .mint }] }

/-- Witness for C2: a mint of 100 followed by a transfer of 30 out of the same
holder, evaluated concretely. -/
theorem claim_C2_witness :
    (∀ t ∈ c2Transfers, 0 ≤ t.value) ∧
    processUserTransfers c2Transfers (fun _ => none) 0 2 "a" = some c2Record ∧
    (sumAmount c2Record.fifoQueue = c2Record.currentBalance ∧
     (calculateUnrealizedPnLUser c2Record 3 0 0).unrealizedCostBasis =
       sumCost c2Record.fifoQueue ∧
     sumCost c2Record.fifoQueue = c2Record.totalCostBasis - c2Record.realizedCostBasis) :=
  ⟨by decide, by decide,
   claim_C2_fifo_lot_conservation c2Transfers (fun _ => none) 0 2 (by decide) "a" c2Record
     (by decide) 3 0 0⟩

/-- C3: every disposal is clamped to the holder current balance (the balance
decreases and the disposed total increases by exactly the minimum of balance
and requested amount), and after processing any transfer stream with
non-negative values every holder in the map has a non-negative balance. -/
theorem claim_C3_disposal_clamped (u : UserPnL) (amount proceeds : Int)
    (transfers : List Transfer) (priceMap : Nat → Option Int) (decimals : Nat)
    (currentPrice : Int) (hv : ∀ t ∈ transfers, 0 ≤ t.value) (s : String) (v : UserPnL)
    (hs : processUserTransfers transfers priceMap decimals currentPrice s = some v) :
    (processDisposal u amount proceeds).currentBalance =
      u.currentBalance - min u.currentBalance amount ∧
    (processDisposal u amount proceeds).totalDisposed =
      u.totalDisposed + min u.currentBalance amount ∧
    0 ≤ v.currentBalance := by
  obtain ⟨hnn, hbal, -⟩ :=
    goodMap_processUserTransfers transfers priceMap decimals currentPrice hv s v hs
  exact ⟨(processDisposal_balance u amount proceeds).1,
    (processDisposal_balance u amount proceeds).2,
    hbal ▸ sumAmount_nonneg v.fifoQueue hnn⟩

def c3Transfers : List Transfer :=
  [⟨ZERO_ADDRESS, "c", 7, 1, .mint⟩, ⟨"c", ZERO_ADDRESS, 9, 2, .burn⟩]

def c3Record : UserPnL :=
  { user := "c", totalAcquired := 7, totalDisposed := 7, currentBalance := 0,
    totalCostBasis := 7, realizedPnL := 2, realizedCostBasis := 7,
    unrealizedCostBasis := 0, currentValue := 0, unrealizedPnL := 0, totalPnL := 0,
    avgAcquisitionPrice := some 0, fifoQueue := [] }

/-- Witness for C3: a burn of 9 against a balance of 7 is clamped, and the
resulting balance is zero, not negative. -/
theorem claim_C3_witness :
    (∀ t ∈ c3Transfers, 0 ≤ t.value) ∧
    processUserTransfers c3Transfers (fun _ => none) 0 1 "c" = some c3Record ∧
    ((processDisposal c3Record 5 5).currentBalance =
       c3Record.currentBalance - min c3Record.currentBalance 5 ∧
     (processDisposal c3Record 5 5).totalDisposed =
       c3Record.totalDisposed + min c3Record.currentBalance 5 ∧
     0 ≤ c3Record.currentBalance) :=
  ⟨by decide, by decide,
   claim_C3_disposal_clamped c3Record 5 5 c3Transfers (fun _ => none) 0 1 (by decide) "c"
     c3Record (by decide)⟩

def c4TransferIn : VaultEvent :=
  { type := .transfer_in, blockNumber := 10, logIndex := 0, user := "a",
    assets := 5, shares := 3 }

/-- C4 counterexample: in the calculate-pnl.ts aggregator a transfer_in event
with asset value 5 leaves the holder with totalAssetsInvested = 5, so transfer
events do add their asset value to totalAssetsInvested there. -/
theorem claim_C4_counterexample :
    totalInvestedOf (aggregateUserPositions [c4TransferIn]) "a" ≠ 0 := by decide

/-- C4 (amended): in the part_003 multi-chain aggregator, a holder
totalAssetsInvested always equals the sum of the assets of that holder deposit
events, so transfer_in events never contribute there; the calculate-pnl.ts
aggregator, by contrast, adds transfer_in assets as well. -/
theorem claim_C4_invested_only_deposits (events : List VaultEvent) (u : String) :
    totalInvestedOf (aggregateUserPositionsMulti events) u = sumDepositAssets events u := by
  unfold aggregateUserPositionsMulti
  rw [foldl_aggregateStepMulti_invested]
  simp [totalInvestedOf]

/-- C5 counterexample: the enrichment price-per-share division on a deposit
event with zero shares does not yield a zero price; the raw bigint division
throws, modelled as none. -/
theorem claim_C5_counterexample :
    depositPricePerShare 5 0 (10 ^ 18) ≠ some 0 := by decide

/-- C5 (amended): divisions routed through the divide utility or the guarded
calculatePnL branches define a zero denominator as zero (average price,
realized and unrealized cost bases, percentage), but the price-per-share
computation assets * oneShare / shares in enrichEventsWithPricePerShare throws
on zero shares instead of yielding a zero price. -/
theorem claim_C5_zero_denominators (a : Int) (position : UserPosition)
    (currentValue : Int) (assetDecimals vaultDecimals : Nat) (assets oneShare : Int)
    (hdep : position.totalSharesDeposited = 0)
    (hinv : position.totalAssetsInvested = 0) :
    divide a 0 = 0 ∧
    (calculatePnL position currentValue assetDecimals vaultDecimals).realizedPnL =
      position.totalAssetsWithdrawn ∧
    (calculatePnL position currentValue assetDecimals vaultDecimals).unrealizedPnL =
      currentValue ∧
    (calculatePnL position currentValue assetDecimals vaultDecimals).avgDepositPrice =
      some 0 ∧
    (calculatePnL position currentValue assetDecimals vaultDecimals).pnlPercentage =
      some 0 ∧
    depositPricePerShare assets 0 oneShare = none := by
  refine ⟨by simp [divide], ?_, ?_, ?_, ?_, by simp [depositPricePerShare]⟩ <;>
    simp [calculatePnL, hdep, hinv]

def c5Position : UserPosition :=
  { user := "z", events := [], totalSharesHeld := 4, totalAssetsInvested := 0,
    totalAssetsWithdrawn := 7, totalSharesDeposited := 0, totalSharesWithdrawn := 2 }

/-- Witness for C5 at a concrete position with no deposited shares. -/
theorem claim_C5_witness :
    c5Position.totalSharesDeposited = 0 ∧ c5Position.totalAssetsInvested = 0 ∧
    (divide 9 0 = 0 ∧
     (calculatePnL c5Position 11 6 18).realizedPnL = c5Position.totalAssetsWithdrawn ∧
     (calculatePnL c5Position 11 6 18).unrealizedPnL = 11 ∧
     (calculatePnL c5Position 11 6 18).avgDepositPrice = some 0 ∧
     (calculatePnL c5Position 11 6 18).pnlPercentage = some 0 ∧
     depositPricePerShare 3 0 (10 ^ 18) = none) :=
  ⟨by decide, by decide,
   claim_C5_zero_denominators 9 c5Position 11 6 18 3 (10 ^ 18) (by decide) (by decide)⟩

def c6Event1 : VaultEvent :=
  { type := .deposit, blockNumber := 7, logIndex := 9, user := "a", assets := 1, shares := 1 }

def c6Event2 : VaultEvent :=
  { type := .transfer_in, blockNumber := 7, logIndex := 2, user := "b", assets := 1, shares := 1 }

/-- C6 counterexample: two same-block events whose log indices are out of
order stay in input order after sortEventsByBlock, so the output is not
ordered by the key (block, log index). -/
theorem claim_C6_counterexample :
    sortEventsByBlock [c6Event1, c6Event2] = [c6Event1, c6Event2] ∧
    c6Event1.blockNumber = c6Event2.blockNumber ∧
    c6Event2.logIndex < c6Event1.logIndex := by decide

/-- C6 (amended): sortEventsByBlock orders events by block number only and is
stable: block numbers are non-decreasing along the output, and for every block
the subsequence of events of that block is exactly the input subsequence in
concatenation order; the log index is not part of the sort key. -/
theorem claim_C6_sorted_by_block_stable (events : List VaultEvent) (b : Nat) :
    (sortEventsByBlock events).Pairwise (fun x y => x.blockNumber ≤ y.blockNumber) ∧
    (sortEventsByBlock events).filter (fun x => x.blockNumber == b) =
      events.filter (fun x => x.blockNumber == b) :=
  ⟨sortEventsByBlock_pairwise events, sortEventsByBlock_filter events b⟩

def c7Position : UserPosition :=
  { user := "t", events := [], totalSharesHeld := 2, totalAssetsInvested := 0,
    totalAssetsWithdrawn := 0, totalSharesDeposited := 0, totalSharesWithdrawn := 0 }

/-- C7 counterexample: a pure transfer recipient holding 2 share units is
assigned an implied cost basis of the literal 1 raw asset unit in total, not 1
asset unit per share, which would be 2. -/
theorem claim_C7_counterexample :
    (calculatePnLMulti c7Position 10 6 18).totalDeposited ≠
      1 * c7Position.totalSharesHeld := by decide

/-- C7 (amended): for a position with zero recorded investment and a positive
share balance, the part_003 calculator assigns an implied total cost basis of
one raw asset unit (the reported totalDeposited is 1, regardless of the share
count), and the average deposit price and pnl percentage are defined finite
values, never a thrown error, an infinity or NaN. -/
theorem claim_C7_zero_basis_recipient (position : UserPosition) (currentValue : Int)
    (assetDecimals vaultDecimals : Nat)
    (hinv : position.totalAssetsInvested = 0) (hheld : 0 < position.totalSharesHeld) :
    (calculatePnLMulti position currentValue assetDecimals vaultDecimals).totalDeposited = 1 ∧
    (calculatePnLMulti position currentValue assetDecimals
      vaultDecimals).avgDepositPrice.isSome ∧
    (calculatePnLMulti position currentValue assetDecimals
      vaultDecimals).pnlPercentage.isSome := by
  refine ⟨?_, ?_, ?_⟩
  · simp [calculatePnLMulti, hinv, hheld]
  · by_cases hd : 0 < position.totalSharesDeposited
    · simp [calculatePnLMulti, hinv, hheld, hd, floatDiv,
        exactToSimple_ne_zero position.totalSharesDeposited vaultDecimals hd]
    · simp [calculatePnLMulti, hinv, hheld, hd]
  · simp [calculatePnLMulti, hinv, hheld, floatDiv,
      exactToSimple_ne_zero 1 assetDecimals (by norm_num)]

def c7WitnessPosition : UserPosition :=
  { user := "w", events := [], totalSharesHeld := 3, totalAssetsInvested := 0,
    totalAssetsWithdrawn := 0, totalSharesDeposited := 4, totalSharesWithdrawn := 0 }

/-- Witness for C7 at a concrete pure transfer recipient. -/
theorem claim_C7_witness :
    c7WitnessPosition.totalAssetsInvested = 0 ∧ 0 < c7WitnessPosition.totalSharesHeld ∧
    ((calculatePnLMulti c7WitnessPosition 10 6 18).totalDeposited = 1 ∧
     (calculatePnLMulti c7WitnessPosition 10 6 18).avgDepositPrice.isSome ∧
     (calculatePnLMulti c7WitnessPosition 10 6 18).pnlPercentage.isSome) :=
  ⟨by decide, by decide,
   claim_C7_zero_basis_recipient c7WitnessPosition 10 6 18 (by decide) (by decide)⟩

/-- C8: a mint whose recipient is the bridge address is suppressed entirely:
removing it from any transfer stream leaves the whole FIFO user map unchanged,
and it contributes zero to totalMinted and totalSupply. -/
theorem claim_C8_bridge_mint_suppressed (l1 l2 : List Transfer) (e : Transfer)
    (priceMap : Nat → Option Int) (decimals : Nat) (currentPrice : Int)
    (users : List UserPnL)
    (ht : e.type = TransferType.mint)
    (hb : isAddressEqual e.toAddr BRIDGE_ADDRESS = true) :
    processUserTransfers (l1 ++ e :: l2) priceMap decimals currentPrice =
      processUserTransfers (l1 ++ l2) priceMap decimals currentPrice ∧
    (calculateVaultPnL (l1 ++ e :: l2) users).totalMinted =
      (calculateVaultPnL (l1 ++ l2) users).totalMinted ∧
    (calculateVaultPnL (l1 ++ e :: l2) users).totalSupply =
      (calculateVaultPnL (l1 ++ l2) users).totalSupply := by
  rcases e with ⟨tf, tt, tv, tb, ty⟩
  change ty = TransferType.mint at ht
  change isAddressEqual tt BRIDGE_ADDRESS = true at hb
  subst ht
  have hstep : ∀ acc : UserMap,
      processOneTransfer decimals priceMap currentPrice acc ⟨tf, tt, tv, tb, .mint⟩ = acc := by
    intro acc
    rw [processOneTransfer_mint, if_pos hb]
  have htot : ∀ acc : TransferTotals,
      transferTotalsStep acc ⟨tf, tt, tv, tb, .mint⟩ = acc := by
    intro acc
    simp [transferTotalsStep, hb]
  refine ⟨?_, ?_, ?_⟩
  · unfold processUserTransfers
    rw [List.foldl_append, List.foldl_append, List.foldl_cons, hstep]
  · unfold calculateVaultPnL
    rw [List.foldl_append, List.foldl_append, List.foldl_cons, htot]
  · unfold calculateVaultPnL
    rw [List.foldl_append, List.foldl_append, List.foldl_cons, htot]

def c8Event : Transfer := ⟨ZERO_ADDRESS, BRIDGE_ADDRESS, 50, 3, .mint⟩

def c8Before : List Transfer := [⟨ZERO_ADDRESS, "a", 5, 1, .mint⟩]

def c8After : List Transfer := [⟨"a", ZERO_ADDRESS, 2, 4, .burn⟩]

/-- Witness for C8: inserting a concrete bridge-addressed mint between a mint
and a burn changes neither the user map nor the mint and supply totals. -/
theorem claim_C8_witness :
    c8Event.type = TransferType.mint ∧
    isAddressEqual c8Event.toAddr BRIDGE_ADDRESS = true ∧
    (processUserTransfers (c8Before ++ c8Event :: c8After) (fun _ => none) 0 1 =
       processUserTransfers (c8Before ++ c8After) (fun _ => none) 0 1 ∧
     (calculateVaultPnL (c8Before ++ c8Event :: c8After) []).totalMinted =
       (calculateVaultPnL (c8Before ++ c8After) []).totalMinted ∧
     (calculateVaultPnL (c8Before ++ c8Event :: c8After) []).totalSupply =
       (calculateVaultPnL (c8Before ++ c8After) []).totalSupply) :=
  ⟨rfl, by decide,
   claim_C8_bridge_mint_suppressed c8Before c8After c8Event (fun _ => none) 0 1 [] rfl
     (by decide)⟩

def c9Deposit : VaultEvent :=
  { type := .deposit, blockNumber := 100, logIndex := 0, user := "alice",
    assets := 1000000 * 10 ^ 6, shares := 1000000 * 10 ^ 18 }

def c9Withdraw : VaultEvent :=
  { type := .withdraw, blockNumber := 200, logIndex := 0, user := "alice",
    assets := 600000 * 10 ^ 6, shares := 500000 * 10 ^ 18 }

def c9Position : UserPosition :=
  { user := "alice", events := [c9Deposit, c9Withdraw],
    totalSharesHeld := 500000 * 10 ^ 18,
    totalAssetsInvested := 1000000 * 10 ^ 6,
    totalAssetsWithdrawn := 600000 * 10 ^ 6,
    totalSharesDeposited := 1000000 * 10 ^ 18,
    totalSharesWithdrawn := 500000 * 10 ^ 18 }

/-- C9: the concrete scenario: a deposit of 1,000,000 assets (6 decimals) for
1,000,000 shares (18 decimals) followed by a withdrawal of 500,000 shares for
600,000 assets, valued at 650,000 assets, yields realized 100,000, unrealized
150,000, total 250,000 and 25 percent, all at 6-decimal scaling. -/
theorem claim_C9_concrete_scenario :
    aggregateUserPositions [c9Deposit, c9Withdraw] "alice" = some c9Position ∧
    (calculatePnL c9Position (650000 * 10 ^ 6) 6 18).realizedPnL = 100000 * 10 ^ 6 ∧
    (calculatePnL c9Position (650000 * 10 ^ 6) 6 18).unrealizedPnL = 150000 * 10 ^ 6 ∧
    (calculatePnL c9Position (650000 * 10 ^ 6) 6 18).pnl = 250000 * 10 ^ 6 ∧
    (calculatePnL c9Position (650000 * 10 ^ 6) 6 18).pnlPercentage = some 25 := by
  refine ⟨by decide, by decide, by decide, by decide, ?_⟩
  have htd : Int.tdiv 500000000000000000000000000000000000 1000000000000000000000000 =
      500000000000 := by decide
  simp only [calculatePnL, c9Position]
  norm_num [floatDiv, exactToSimple, htd]

/-- C10: cost-basis conservation across partial-lot consumption: for every
holder after any stream with non-negative values, totalCostBasis equals
realizedCostBasis plus the remaining queue cost total; and a disposal leaves
totalAcquired, totalCostBasis and every field other than totalDisposed,
currentBalance, fifoQueue, realizedCostBasis and realizedPnL unchanged. -/
theorem claim_C10_cost_basis_conservation (transfers : List Transfer)
    (priceMap : Nat → Option Int) (decimals : Nat) (currentPrice : Int)
    (hv : ∀ t ∈ transfers, 0 ≤ t.value) (s : String) (u : UserPnL)
    (hu : processUserTransfers transfers priceMap decimals currentPrice s = some u)
    (w : UserPnL) (amount proceeds : Int) :
    u.totalCostBasis = u.realizedCostBasis + sumCost u.fifoQueue ∧
    (processDisposal w amount proceeds).totalAcquired = w.totalAcquired ∧
    (processDisposal w amount proceeds).totalCostBasis = w.totalCostBasis ∧
    (processDisposal w amount proceeds).user = w.user ∧
    (processDisposal w amount proceeds).unrealizedCostBasis = w.unrealizedCostBasis ∧
    (processDisposal w amount proceeds).currentValue = w.currentValue ∧
    (processDisposal w amount proceeds).unrealizedPnL = w.unrealizedPnL ∧
    (processDisposal w amount proceeds).totalPnL = w.totalPnL ∧
    (processDisposal w amount proceeds).avgAcquisitionPrice = w.avgAcquisitionPrice := by
  obtain ⟨-, -, hcb⟩ :=
    goodMap_processUserTransfers transfers priceMap decimals currentPrice hv s u hu
  refine ⟨by omega, ?_, ?_, ?_, ?_, ?_, ?_, ?_, ?_⟩ <;>
    (simp only [processDisposal]; split <;> split <;> rfl)

def c10Transfers : List Transfer :=
  [⟨ZERO_ADDRESS, "d", 10, 1, .mint⟩, ⟨"d", "e", 4, 2, .transfer⟩]

def c10Record : UserPnL :=
  { user := "d", totalAcquired := 10, totalDisposed := 4, currentBalance := 6,
    totalCostBasis := 30, realizedPnL := 0, realizedCostBasis := 12,
    unrealizedCostBasis := 0, currentValue := 0, unrealizedPnL := 0, totalPnL := 0,
    avgAcquisitionPrice := some 0,
    fifoQueue := [{ amount := 6, costBasis := 18, blockNumber := 1, source := .mint }] }

/-- Witness for C10: after a partial-lot disposal of 4 out of a lot of 10, the
cost moved to realized (12) and the residual lot cost (18) sum to the original
30, and a further disposal leaves the frame fields unchanged. -/
theorem claim_C10_witness :
    (∀ t ∈ c10Transfers, 0 ≤ t.value) ∧
    processUserTransfers c10Transfers (fun _ => none) 0 3 "d" = some c10Record ∧
    (c10Record.totalCostBasis = c10Record.realizedCostBasis + sumCost c10Record.fifoQueue ∧
     (processDisposal c10Record 2 5).totalAcquired = c10Record.totalAcquired ∧
     (processDisposal c10Record 2 5).totalCostBasis = c10Record.totalCostBasis ∧
     (processDisposal c10Record 2 5).user = c10Record.user ∧
     (processDisposal c10Record 2 5).unrealizedCostBasis = c10Record.unrealizedCostBasis ∧
     (processDisposal c10Record 2 5).currentValue = c10Record.currentValue ∧
     (processDisposal c10Record 2 5).unrealizedPnL = c10Record.unrealizedPnL ∧
     (processDisposal c10Record 2 5).totalPnL = c10Record.totalPnL ∧
     (processDisposal c10Record 2 5).avgAcquisitionPrice = c10Record.avgAcquisitionPrice) :=
  ⟨by decide, by decide,
   claim_C10_cost_basis_conservation c10Transfers (fun _ => none) 0 3 (by decide) "d"
     c10Record (by decide) c10Record 2 5⟩
